import Mathlib

/-!
Shallow embedding of the Unitime library (src/src/lib.rs).

Time model: the stored instant of `web_time::SystemTime` on the wasm target is a
duration since the Unix epoch; the clock has millisecond resolution (JavaScript
Date.now yields whole milliseconds) and every stored instant is built from whole
milliseconds, so an instant is modelled as a natural number of milliseconds since
the epoch, and the current time `now` is passed explicitly as such a number.
`Duration` arithmetic on whole milliseconds is exact in this model.  A Rust panic
(from `Result::unwrap` on a failed `duration_since`) is modelled as `none`.
-/

/-- Rust `a.duration_since(b)`: `some (a - b)` milliseconds when `b ≤ a`, otherwise
the `Err` that the library immediately unwraps (modelled as `none`, a panic). -/
def duration_since (a b : Nat) : Option Nat :=
  if b ≤ a then some (a - b) else none

/-- Rust `as i32` applied to a `u64` value: keep the low 32 bits, read them as
two's complement. -/
def i32cast (n : Nat) : Int :=
  if n % 2 ^ 32 < 2 ^ 31 then ((n % 2 ^ 32 : Nat) : Int)
  else ((n % 2 ^ 32 : Nat) : Int) - 2 ^ 32

/-- An `f64` value crossing the wasm boundary: a finite value (given by the exact
rational it denotes) or one of the non-finite values. -/
inductive F64 where
  | finite (q : ℚ)
  | nan
  | inf
  | negInf

/-- Rust `as u64` on an `f64`: truncate toward zero and saturate to
`[0, 2 ^ 64 - 1]`; `NaN` goes to `0`. -/
def F64.toU64 : F64 → Nat
  | .finite q => if q < 0 then 0 else min (Int.toNat ⌊q⌋) (2 ^ 64 - 1)
  | .nan => 0
  | .inf => 2 ^ 64 - 1
  | .negInf => 0

/-- Finite nonnegative values representable as an IEEE double: a 53-bit integer
times a power of two.  The exponent range is left unconstrained, which only admits
extra values; every real nonnegative finite double is of this form. -/
def F64.IsRepr (q : ℚ) : Prop := ∃ (m : ℕ) (e : ℤ), m < 2 ^ 53 ∧ q = (m : ℚ) * 2 ^ e

/-- Round `n` to the nearest multiple of `2 ^ e`, ties to the even multiple. -/
def roundNearestEven (n e : Nat) : Nat :=
  if 2 * (n % 2 ^ e) < 2 ^ e then n / 2 ^ e * 2 ^ e
  else if 2 ^ e < 2 * (n % 2 ^ e) then (n / 2 ^ e + 1) * 2 ^ e
  else if n / 2 ^ e % 2 = 0 then n / 2 ^ e * 2 ^ e else (n / 2 ^ e + 1) * 2 ^ e

/-- Exponent of the distance between consecutive doubles at magnitude `n` (for
`n < 2 ^ 64`): the `e` with `2 ^ (52 + e) ≤ n < 2 ^ (53 + e)`, and `0` for
`n < 2 ^ 52`. -/
def ulpExp (n : Nat) : Nat := ((Finset.range 64).filter fun e => 2 ^ (53 + e) ≤ n).card

/-- Exact value of the Rust `u64 as f64` (and `u128 as f64`, below `2 ^ 64`)
conversion: round to nearest, ties to even.  The converted value is an integer,
returned here as the natural number it equals. -/
def u64_to_f64 (n : Nat) : Nat := roundNearestEven n (ulpExp n)

/-- The state of a `Unitime`: the one stored field `time`, an instant expressed as
milliseconds since the Unix epoch. -/
structure Unitime where
  time : Nat
deriving DecidableEq

/-- `Unitime::new`: store the current clock reading. -/
def Unitime.new (now : Nat) : Unitime := ⟨now⟩

/-- `Unitime::from_epoch_mil`: `self.time = UNIX_EPOCH + Duration::from_millis(mil as u64)`,
then `Unitime { time: self.time }` is returned.  The result is the pair
(receiver after the call, returned value); both carry the same instant. -/
def Unitime.from_epoch_mil (_self : Unitime) (mil : F64) : Unitime × Unitime :=
  (⟨F64.toU64 mil⟩, ⟨F64.toU64 mil⟩)

/-- `Unitime::get_elapsed_hours`.  The source subtracts the hours component from
`elapsed` afterwards and discards the result; that dead store is kept as `_elapsed`. -/
def Unitime.get_elapsed_hours (self : Unitime) (now : Nat) : Option Int :=
  (duration_since now self.time).map fun elapsed =>
    let hours := elapsed / 1000 / 3600
    let _elapsed := elapsed - hours * 3600 * 1000
    i32cast hours

/-- `Unitime::get_elapsed_minutes`: whole hours are removed first, then the minutes
of the remainder are taken. -/
def Unitime.get_elapsed_minutes (self : Unitime) (now : Nat) : Option Int :=
  (duration_since now self.time).map fun elapsed =>
    let hours := elapsed / 1000 / 3600
    let elapsed := elapsed - hours * 3600 * 1000
    let minutes := elapsed / 1000 / 60
    let _elapsed := elapsed - minutes * 60 * 1000
    i32cast minutes

/-- `Unitime::get_elapsed_seconds`: whole hours and whole minutes are removed, then
the remaining whole seconds are returned. -/
def Unitime.get_elapsed_seconds (self : Unitime) (now : Nat) : Option Int :=
  (duration_since now self.time).map fun elapsed =>
    let hours := elapsed / 1000 / 3600
    let elapsed := elapsed - hours * 3600 * 1000
    let minutes := elapsed / 1000 / 60
    let elapsed := elapsed - minutes * 60 * 1000
    i32cast (elapsed / 1000)

/-- `Unitime::get_epoch_mil`: `self.time.duration_since(UNIX_EPOCH).unwrap().as_millis() as f64`.
`as_millis` of the stored duration is exactly `self.time`; the `u128 as f64` cast is
`u64_to_f64` (every stored instant is below `2 ^ 64` milliseconds). -/
def Unitime.get_epoch_mil (self : Unitime) : Option Nat :=
  (duration_since self.time 0).map u64_to_f64

/-- `Unitime::get_epoch_sec`: `duration_since(UNIX_EPOCH).unwrap().as_secs_f32()`.
Only the unwrap structure and the exact rational that the `f32` rounding is applied
to are modelled; no claim inspects the rounded value. -/
def Unitime.get_epoch_sec (self : Unitime) : Option ℚ :=
  (duration_since self.time 0).map fun ms => (ms : ℚ) / 1000

/-- `Unitime::get_total_elapsed_sec`: `secs as f64 + minutes as f64 * 60.0 + hours as f64 * 3600.0`.
All three addends are integers, and whenever the total is below `2 ^ 53` (every
statement below stays far under that bound) the `f64` arithmetic is exact, so the
returned double equals the natural number computed here. -/
def Unitime.get_total_elapsed_sec (self : Unitime) (now : Nat) : Option Nat :=
  (duration_since now self.time).map fun elapsed =>
    let hours := elapsed / 1000 / 3600
    let elapsed := elapsed - hours * 3600 * 1000
    let minutes := elapsed / 1000 / 60
    let elapsed := elapsed - minutes * 60 * 1000
    elapsed / 1000 + minutes * 60 + hours * 3600

/-- `Unitime::get_total_elapsed_min`: `(hours * 60 + minutes) as f64`, computed in
`u64` arithmetic; the value is always below `2 ^ 53`, so the final cast is exact. -/
def Unitime.get_total_elapsed_min (self : Unitime) (now : Nat) : Option Nat :=
  (duration_since now self.time).map fun elapsed =>
    let hours := elapsed / 1000 / 3600
    let elapsed := elapsed - hours * 3600 * 1000
    let minutes := elapsed / 1000 / 60
    let _elapsed := elapsed - minutes * 60 * 1000
    hours * 60 + minutes

/-- `Unitime::get_elapsed_str`: calls the three elapsed getters (each can panic on
skew, modelled by the `Option` bind) and pushes the pieces onto a string in source
order: the hour part only when `hours != 0`, each component preceded by `"0"` when
it is below `10`. -/
def Unitime.get_elapsed_str (self : Unitime) (now : Nat) : Option String := do
  let hours ← self.get_elapsed_hours now
  let minutes ← self.get_elapsed_minutes now
  let seconds ← self.get_elapsed_seconds now
  let result : String := ""
  let result := if hours ≠ 0 then
    ((if hours < 10 then result ++ "0" else result) ++ toString hours) ++ ":"
  else result
  let result := if minutes < 10 then result ++ "0" else result
  let result := (result ++ toString minutes) ++ ":"
  let result := if seconds < 10 then result ++ "0" else result
  pure (result ++ toString seconds)

/-- Zero padding exactly as the spec words it: two digits when the value is between
0 and 9 inclusive, the plain decimal otherwise. -/
def specPad (n : Int) : String := if 0 ≤ n ∧ n ≤ 9 then "0" ++ toString n else toString n

/-- The `Unitime` states reachable through the public constructors and mutator:
`new`, and either component (mutated receiver or returned value) of
`from_epoch_mil`. -/
inductive Reachable : Unitime → Prop where
  | new (now : Nat) : Reachable (Unitime.new now)
  | fromMilReceiver (t : Unitime) (mil : F64) : Reachable t →
      Reachable (t.from_epoch_mil mil).1
  | fromMilReturned (t : Unitime) (mil : F64) : Reachable t →
      Reachable (t.from_epoch_mil mil).2

/-- The public operations of the library that act on an existing receiver. -/
inductive UOp where
  | fromEpochMil (mil : F64)
  | getElapsedHours (now : Nat)
  | getElapsedMinutes (now : Nat)
  | getElapsedSeconds (now : Nat)
  | getTotalElapsedSec (now : Nat)
  | getTotalElapsedMin (now : Nat)
  | getElapsedStr (now : Nat)
  | epochMil
  | epochSec

/-- Whether the operation takes the receiver by `&mut self` in the source
(only `from_epoch_mil` does; every query takes `&self`). -/
def UOp.mutatesReceiver : UOp → Bool
  | .fromEpochMil _ => true
  | _ => false

/-- Receiver state after each public method call.  Methods taking `&self` in the
source have no write access to the receiver, so they leave the state as is;
`from_epoch_mil` takes `&mut self` and assigns `self.time`. -/
def applyOp (t : Unitime) : UOp → Unitime
  | .fromEpochMil mil => (t.from_epoch_mil mil).1
  | .getElapsedHours _ => t
  | .getElapsedMinutes _ => t
  | .getElapsedSeconds _ => t
  | .getTotalElapsedSec _ => t
  | .getTotalElapsedMin _ => t
  | .getElapsedStr _ => t
  | .epochMil => t
  | .epochSec => t

/-! ### Helper lemmas -/

theorem duration_since_eq (a b d : Nat) (h : duration_since a b = some d) :
    b ≤ a ∧ d = a - b := by
  unfold duration_since at h
  split at h <;> simp_all

theorem i32cast_of_lt (n : Nat) (h : n < 2 ^ 31) : i32cast n = (n : Int) := by
  unfold i32cast
  rw [Nat.mod_eq_of_lt (by omega), if_pos h]

theorem get_elapsed_hours_some (t : Unitime) (now d : Nat)
    (hd : duration_since now t.time = some d) :
    t.get_elapsed_hours now = some (i32cast (d / 1000 / 3600)) := by
  simp [Unitime.get_elapsed_hours, hd]

theorem get_elapsed_minutes_some (t : Unitime) (now d : Nat)
    (hd : duration_since now t.time = some d) :
    t.get_elapsed_minutes now = some (i32cast (d / 1000 % 3600 / 60)) := by
  rw [Unitime.get_elapsed_minutes, hd]
  simp only [Option.map_some']
  congr 2
  omega

theorem get_elapsed_seconds_some (t : Unitime) (now d : Nat)
    (hd : duration_since now t.time = some d) :
    t.get_elapsed_seconds now = some (i32cast (d / 1000 % 60)) := by
  rw [Unitime.get_elapsed_seconds, hd]
  simp only [Option.map_some']
  congr 2
  omega

theorem get_total_elapsed_sec_some (t : Unitime) (now d : Nat)
    (hd : duration_since now t.time = some d) :
    t.get_total_elapsed_sec now = some (d / 1000) := by
  rw [Unitime.get_total_elapsed_sec, hd]
  simp only [Option.map_some']
  congr 1
  omega

theorem get_total_elapsed_min_some (t : Unitime) (now d : Nat)
    (hd : duration_since now t.time = some d) :
    t.get_total_elapsed_min now = some (d / 1000 / 3600 * 60 + d / 1000 % 3600 / 60) := by
  rw [Unitime.get_total_elapsed_min, hd]
  simp only [Option.map_some']
  congr 1
  omega

/-! ### Claim theorems -/

/-- C10.  Every query operation (the elapsed getters, the totals, the formatted
string, and the epoch accessors) leaves the stored instant unchanged; of the
receiver operations only `from_epoch_mil` assigns it (it is the only one taking
`&mut self` in the source). -/
theorem queries_preserve_state (t : Unitime) (op : UOp)
    (h : op.mutatesReceiver = false) : applyOp t op = t := by
  cases op <;> simp_all [applyOp, UOp.mutatesReceiver]

theorem queries_preserve_state_witness : applyOp ⟨3⟩ UOp.epochMil = ⟨3⟩ :=
  queries_preserve_state ⟨3⟩ UOp.epochMil rfl

/-- C8.  On every reachable `Unitime` state the stored instant is at or after the
Unix epoch, so `duration_since(UNIX_EPOCH)` inside `get_epoch_mil` and
`get_epoch_sec` never hits its error branch: the unwrap never panics. -/
theorem epoch_accessors_no_panic (t : Unitime) (h : Reachable t) :
    (t.get_epoch_mil).isSome ∧ (t.get_epoch_sec).isSome := by
  constructor <;> simp [Unitime.get_epoch_mil, Unitime.get_epoch_sec, duration_since]

theorem epoch_accessors_no_panic_witness :
    ((Unitime.new 5).get_epoch_mil).isSome ∧ ((Unitime.new 5).get_epoch_sec).isSome :=
  epoch_accessors_no_panic (Unitime.new 5) (Reachable.new 5)

/-- C9.  `from_epoch_mil` rejects nothing: a NaN, a negative value or negative
infinity silently stores the Unix epoch itself (and `get_epoch_mil` then reads
back 0), while a value at or above `2 ^ 64` or positive infinity saturates the
stored offset to `2 ^ 64 - 1` milliseconds. -/
theorem from_epoch_mil_saturation (t : Unitime) (q qbig : ℚ)
    (hneg : q < 0) (hbig : (2 : ℚ) ^ 64 ≤ qbig) :
    (t.from_epoch_mil (.finite q)).2.time = 0 ∧
    (t.from_epoch_mil (.finite q)).2.get_epoch_mil = some 0 ∧
    (t.from_epoch_mil .nan).2.time = 0 ∧
    (t.from_epoch_mil .nan).2.get_epoch_mil = some 0 ∧
    (t.from_epoch_mil .negInf).2.time = 0 ∧
    (t.from_epoch_mil (.finite qbig)).2.time = 2 ^ 64 - 1 ∧
    (t.from_epoch_mil .inf).2.time = 2 ^ 64 - 1 := by
  have hfloor : (2 ^ 64 : ℤ) ≤ ⌊qbig⌋ := by
    rw [Int.le_floor]
    push_cast
    exact hbig
  have hmil0 : ∀ u : Unitime, u.get_epoch_mil = some (u64_to_f64 u.time) := by
    intro u
    simp [Unitime.get_epoch_mil, duration_since]
  refine ⟨?_, ?_, rfl, ?_, rfl, ?_, rfl⟩
  · simp [Unitime.from_epoch_mil, F64.toU64, hneg]
  · rw [Unitime.from_epoch_mil]
    rw [hmil0]
    simp [F64.toU64, hneg]
    decide
  · rw [Unitime.from_epoch_mil]
    rw [hmil0]
    decide
  · simp only [Unitime.from_epoch_mil, F64.toU64]
    rw [if_neg (by linarith), min_eq_right (by omega)]

theorem from_epoch_mil_saturation_witness :
    ((Unitime.mk 7).from_epoch_mil (.finite (-3))).2.time = 0 ∧
    ((Unitime.mk 7).from_epoch_mil (.finite (2 ^ 64))).2.time = 2 ^ 64 - 1 :=
  ⟨(from_epoch_mil_saturation ⟨7⟩ (-3) (2 ^ 64) (by decide) (by decide)).1,
   (from_epoch_mil_saturation ⟨7⟩ (-3) (2 ^ 64) (by decide) (by decide)).2.2.2.2.2.1⟩

/-- C7.  Evaluation of the code at invalid inputs: a negative value, NaN and
negative infinity are all accepted by `from_epoch_mil`, which returns normally
with the epoch stored; no `InvalidInput` error exists in the code. -/
theorem invalid_input_not_rejected :
    (Unitime.mk 42).from_epoch_mil (.finite (-5)) = (⟨0⟩, ⟨0⟩) ∧
    (Unitime.mk 42).from_epoch_mil .nan = (⟨0⟩, ⟨0⟩) ∧
    (Unitime.mk 42).from_epoch_mil .negInf = (⟨0⟩, ⟨0⟩) := by
  decide

/-- C1.  Evaluation of the code at a skewed input (stored instant 1000 ms after
the epoch, clock reading 0 ms): every elapsed-time operation ends in the panic of
`Result::unwrap` (modelled `none`), an unrecoverable fault; no `ClockSkew` error
value is ever produced for the caller. -/
theorem skew_panics_all_ops :
    Unitime.get_elapsed_hours ⟨1000⟩ 0 = none ∧
    Unitime.get_elapsed_minutes ⟨1000⟩ 0 = none ∧
    Unitime.get_elapsed_seconds ⟨1000⟩ 0 = none ∧
    Unitime.get_total_elapsed_sec ⟨1000⟩ 0 = none ∧
    Unitime.get_total_elapsed_min ⟨1000⟩ 0 = none ∧
    Unitime.get_elapsed_str ⟨1000⟩ 0 = none := by
  decide

/-- C4 (amended).  When the stored instant is not in the future, the minutes and
seconds components always lie in `[0, 59]` (their values never exceed 59, so their
`u64 as i32` casts never wrap); the hours component is nonnegative provided the
elapsed whole hours fit in `i32` (are below `2 ^ 31`), the bound the `u64 as i32`
cast in the source imposes on that component alone. -/
theorem elapsed_components_range (t : Unitime) (now : Nat) (hv m s : Int)
    (hh : t.get_elapsed_hours now = some hv)
    (hm : t.get_elapsed_minutes now = some m)
    (hs : t.get_elapsed_seconds now = some s) :
    (0 ≤ m ∧ m ≤ 59) ∧ (0 ≤ s ∧ s ≤ 59) ∧
      ((now - t.time) / 1000 / 3600 < 2 ^ 31 → 0 ≤ hv) := by
  cases hd : duration_since now t.time with
  | none => rw [Unitime.get_elapsed_hours, hd] at hh; cases hh
  | some d =>
    obtain ⟨hle, rfl⟩ := duration_since_eq now t.time d hd
    rw [get_elapsed_minutes_some t now _ hd, i32cast_of_lt _ (by omega),
      Option.some.injEq] at hm
    rw [get_elapsed_seconds_some t now _ hd, i32cast_of_lt _ (by omega),
      Option.some.injEq] at hs
    refine ⟨by omega, by omega, ?_⟩
    intro hb
    rw [get_elapsed_hours_some t now _ hd, i32cast_of_lt _ (by omega),
      Option.some.injEq] at hh
    omega

theorem elapsed_components_range_witness :
    (0 ≤ (2 : Int) ∧ (2 : Int) ≤ 59) ∧ (0 ≤ (5 : Int) ∧ (5 : Int) ≤ 59) ∧ 0 ≤ (1 : Int) :=
  ⟨(elapsed_components_range ⟨0⟩ 3725000 1 2 5 (by decide) (by decide) (by decide)).1,
   (elapsed_components_range ⟨0⟩ 3725000 1 2 5 (by decide) (by decide) (by decide)).2.1,
   (elapsed_components_range ⟨0⟩ 3725000 1 2 5 (by decide) (by decide) (by decide)).2.2
     (by decide)⟩

/-- C4 counterexample.  With the stored instant at the epoch and the clock reading
`2 ^ 31` hours later (a non-future stored instant), `get_elapsed_hours` returns
`-2 ^ 31`, a negative value: the `u64 as i32` cast wraps. -/
theorem elapsed_hours_sign_cex :
    Unitime.get_elapsed_hours ⟨0⟩ 7730941132800000 = some (-(2 ^ 31)) ∧
    ¬ (0 ≤ (-(2 ^ 31) : Int)) := by
  decide

/-- C2 (amended).  When the stored instant is not in the future and the elapsed
whole hours fit in `i32` (are below `2 ^ 31`), the decomposition identity
`hours * 3600 + minutes * 60 + seconds = total elapsed seconds` holds exactly, and
the total is integral (the model returns the natural number the exact `f64`
arithmetic produces). -/
theorem elapsed_decomposition (t : Unitime) (now : Nat) (hv m s : Int) (T : Nat)
    (hh : t.get_elapsed_hours now = some hv)
    (hm : t.get_elapsed_minutes now = some m)
    (hs : t.get_elapsed_seconds now = some s)
    (hT : t.get_total_elapsed_sec now = some T)
    (hb : (now - t.time) / 1000 / 3600 < 2 ^ 31) :
    hv * 3600 + m * 60 + s = (T : Int) := by
  cases hd : duration_since now t.time with
  | none => rw [Unitime.get_elapsed_hours, hd] at hh; cases hh
  | some d =>
    obtain ⟨hle, rfl⟩ := duration_since_eq now t.time d hd
    rw [get_elapsed_hours_some t now _ hd, i32cast_of_lt _ (by omega),
      Option.some.injEq] at hh
    rw [get_elapsed_minutes_some t now _ hd, i32cast_of_lt _ (by omega),
      Option.some.injEq] at hm
    rw [get_elapsed_seconds_some t now _ hd, i32cast_of_lt _ (by omega),
      Option.some.injEq] at hs
    rw [get_total_elapsed_sec_some t now _ hd, Option.some.injEq] at hT
    omega

theorem elapsed_decomposition_witness : (1 : Int) * 3600 + 2 * 60 + 5 = ((3725 : Nat) : Int) :=
  elapsed_decomposition ⟨0⟩ 3725000 1 2 5 3725
    (by decide) (by decide) (by decide) (by decide) (by decide)

/-- C2 counterexample.  At a non-future stored instant exactly `2 ^ 31` hours before
the clock reading, the hours getter wraps to `-2 ^ 31` while the total stays
positive, so `hours * 3600 + minutes * 60 + seconds` is not the total. -/
theorem elapsed_decomposition_cex :
    Unitime.get_elapsed_hours ⟨0⟩ 7730941132800000 = some (-(2 ^ 31)) ∧
    Unitime.get_elapsed_minutes ⟨0⟩ 7730941132800000 = some 0 ∧
    Unitime.get_elapsed_seconds ⟨0⟩ 7730941132800000 = some 0 ∧
    Unitime.get_total_elapsed_sec ⟨0⟩ 7730941132800000 = some 7730941132800 ∧
    (-(2 ^ 31) : Int) * 3600 + 0 * 60 + 0 ≠ ((7730941132800 : Nat) : Int) := by
  refine ⟨by decide, by decide, by decide, by decide, by decide⟩

/-- C6 (amended).  When the stored instant is not in the future and the elapsed
whole hours fit in `i32` (are below `2 ^ 31`),
`get_total_elapsed_min = get_elapsed_hours * 60 + get_elapsed_minutes` holds
exactly. -/
theorem total_min_identity (t : Unitime) (now : Nat) (hv m : Int) (Tm : Nat)
    (hh : t.get_elapsed_hours now = some hv)
    (hm : t.get_elapsed_minutes now = some m)
    (hTm : t.get_total_elapsed_min now = some Tm)
    (hb : (now - t.time) / 1000 / 3600 < 2 ^ 31) :
    hv * 60 + m = (Tm : Int) := by
  cases hd : duration_since now t.time with
  | none => rw [Unitime.get_elapsed_hours, hd] at hh; cases hh
  | some d =>
    obtain ⟨hle, rfl⟩ := duration_since_eq now t.time d hd
    rw [get_elapsed_hours_some t now _ hd, i32cast_of_lt _ (by omega),
      Option.some.injEq] at hh
    rw [get_elapsed_minutes_some t now _ hd, i32cast_of_lt _ (by omega),
      Option.some.injEq] at hm
    rw [get_total_elapsed_min_some t now _ hd, Option.some.injEq] at hTm
    omega

theorem total_min_identity_witness : (1 : Int) * 60 + 2 = ((62 : Nat) : Int) :=
  total_min_identity ⟨0⟩ 3725000 1 2 62 (by decide) (by decide) (by decide) (by decide)

/-- C6 counterexample.  At a non-future stored instant exactly `2 ^ 31` hours before
the clock reading, the hours getter wraps to `-2 ^ 31` while the total minutes stay
positive, so `hours * 60 + minutes` is not the total. -/
theorem total_min_identity_cex :
    Unitime.get_elapsed_hours ⟨0⟩ 7730941132800000 = some (-(2 ^ 31)) ∧
    Unitime.get_elapsed_minutes ⟨0⟩ 7730941132800000 = some 0 ∧
    Unitime.get_total_elapsed_min ⟨0⟩ 7730941132800000 = some 128849018880 ∧
    (-(2 ^ 31) : Int) * 60 + 0 ≠ ((128849018880 : Nat) : Int) := by
  refine ⟨by decide, by decide, by decide, by decide⟩

theorem roundNearestEven_of_dvd (n e : Nat) (h : 2 ^ e ∣ n) :
    roundNearestEven n e = n := by
  unfold roundNearestEven
  have h0 : n % 2 ^ e = 0 := by
    obtain ⟨c, rfl⟩ := h
    exact Nat.mul_mod_right _ _
  rw [h0, if_pos (by simp [pow_pos (show (0:ℕ) < 2 by norm_num) e])]
  exact Nat.div_mul_cancel h

theorem ulpExp_le_of_lt (m k : Nat) (hm : m < 2 ^ 53) : ulpExp (m * 2 ^ k) ≤ k := by
  unfold ulpExp
  have hsub : ((Finset.range 64).filter fun e => 2 ^ (53 + e) ≤ m * 2 ^ k) ⊆
      Finset.range k := by
    intro e he
    simp only [Finset.mem_filter, Finset.mem_range] at he ⊢
    have h2 : m * 2 ^ k < 2 ^ (53 + k) := by
      rw [pow_add]
      exact (Nat.mul_lt_mul_right (pow_pos (by norm_num) k)).mpr hm
    have h3 : (2 : ℕ) ^ (53 + e) < 2 ^ (53 + k) := lt_of_le_of_lt he.2 h2
    have h4 : 53 + e < 53 + k := (Nat.pow_lt_pow_iff_right (by norm_num)).mp h3
    omega
  calc ((Finset.range 64).filter fun e => 2 ^ (53 + e) ≤ m * 2 ^ k).card
      ≤ (Finset.range k).card := Finset.card_le_card hsub
    _ = k := Finset.card_range k

theorem u64_to_f64_eq_self (m k : Nat) (hm : m < 2 ^ 53) :
    u64_to_f64 (m * 2 ^ k) = m * 2 ^ k := by
  apply roundNearestEven_of_dvd
  exact Dvd.dvd.mul_left (pow_dvd_pow 2 (ulpExp_le_of_lt m k hm)) m

/-- C3 (amended).  For every nonnegative finite double `v` below `2 ^ 64` (the
range in which the `f64 as u64` cast does not saturate), `get_epoch_mil` after
`from_epoch_mil v` returns exactly the floor of `v`: the stored offset is the
truncation of `v` to whole milliseconds, and reading it back through `u64 as f64`
is exact because the truncated value still fits in 53 bits of mantissa times a
power of two. -/
theorem epoch_mil_floor (t : Unitime) (q : ℚ)
    (hrep : F64.IsRepr q) (h0 : 0 ≤ q) (hlt : q < 2 ^ 64) :
    ((t.from_epoch_mil (.finite q)).2).get_epoch_mil = some (Int.toNat ⌊q⌋) := by
  have hfl_lt : ⌊q⌋ < 2 ^ 64 := by
    have h1 : ((⌊q⌋ : ℤ) : ℚ) < 2 ^ 64 := lt_of_le_of_lt (Int.floor_le q) hlt
    exact_mod_cast h1
  have hexact : u64_to_f64 (Int.toNat ⌊q⌋) = Int.toNat ⌊q⌋ := by
    obtain ⟨m, e, hm, hq⟩ := hrep
    rcases le_or_lt 0 e with he | he
    · lift e to ℕ using he
      have hqn : q = ((m * 2 ^ e : ℕ) : ℚ) := by
        rw [hq]
        push_cast [zpow_natCast]
        ring
      rw [hqn, Int.floor_natCast, Int.toNat_natCast]
      exact u64_to_f64_eq_self m e hm
    · have hq53 : q < 2 ^ 53 := by
        have h1 : (2 : ℚ) ^ e ≤ 1 := zpow_le_one_of_nonpos₀ (by norm_num) (le_of_lt he)
        have h2 : q ≤ (m : ℚ) := by
          rw [hq]
          exact mul_le_of_le_one_right (by positivity) h1
        calc q ≤ (m : ℚ) := h2
          _ < 2 ^ 53 := by exact_mod_cast hm
      have hn : Int.toNat ⌊q⌋ < 2 ^ 53 := by
        have h1 : ((⌊q⌋ : ℤ) : ℚ) < 2 ^ 53 := lt_of_le_of_lt (Int.floor_le q) hq53
        have h2 : ⌊q⌋ < (2 ^ 53 : ℤ) := by exact_mod_cast h1
        omega
      have h3 := u64_to_f64_eq_self (Int.toNat ⌊q⌋) 0 hn
      simpa using h3
  have htoU : F64.toU64 (.finite q) = Int.toNat ⌊q⌋ := by
    simp only [F64.toU64]
    rw [if_neg (not_lt.mpr h0), min_eq_left (by omega)]
  rw [Unitime.from_epoch_mil]
  simp [Unitime.get_epoch_mil, duration_since, htoU, hexact]

theorem epoch_mil_floor_witness :
    ((Unitime.mk 0).from_epoch_mil (.finite 1693470768154)).2.get_epoch_mil =
      some (Int.toNat ⌊(1693470768154 : ℚ)⌋) :=
  epoch_mil_floor ⟨0⟩ 1693470768154
    ⟨1693470768154, 0, by decide, by simp⟩ (by decide) (by decide)

/-- C3 counterexample.  The claim quantifies over every nonnegative finite value;
at `v = 2 ^ 65` (a finite double) the cast saturates to `2 ^ 64 - 1` milliseconds
and `get_epoch_mil` reads back `2 ^ 64` (the nearest double), not `⌊v⌋ = 2 ^ 65`. -/
theorem epoch_mil_floor_cex :
    ((Unitime.mk 0).from_epoch_mil (.finite (2 ^ 65))).2.get_epoch_mil = some (2 ^ 64) ∧
    ((2 ^ 64 : ℕ) : ℤ) ≠ ⌊(2 ^ 65 : ℚ)⌋ := by
  constructor
  · decide
  · decide

theorem specPad_pad (n : Int) (h0 : 0 ≤ n) (h9 : n ≤ 9) : specPad n = "0" ++ toString n := by
  unfold specPad
  rw [if_pos ⟨h0, h9⟩]

theorem specPad_plain (n : Int) (h : ¬ (0 ≤ n ∧ n ≤ 9)) : specPad n = toString n := by
  unfold specPad
  rw [if_neg h]

/-- C5.  The formatted elapsed string is composed from exactly the values the three
getters return: when the hours value is positive the string is
`HH:MM:SS`, when it is zero the string is `MM:SS` with no hour part, and every
component is zero padded to two digits exactly when its value is between 0 and 9
inclusive. -/
theorem elapsed_str_format (t : Unitime) (now : Nat) (hv m s : Int) (str : String)
    (hh : t.get_elapsed_hours now = some hv)
    (hm : t.get_elapsed_minutes now = some m)
    (hs : t.get_elapsed_seconds now = some s)
    (hstr : t.get_elapsed_str now = some str) :
    (0 < hv → str = specPad hv ++ ":" ++ specPad m ++ ":" ++ specPad s) ∧
    (hv = 0 → str = specPad m ++ ":" ++ specPad s) := by
  cases hd : duration_since now t.time with
  | none => rw [Unitime.get_elapsed_hours, hd] at hh; cases hh
  | some d =>
    have hm59 : 0 ≤ m ∧ m ≤ 59 := by
      have h2 := hm
      rw [get_elapsed_minutes_some t now d hd, i32cast_of_lt _ (by omega),
        Option.some.injEq] at h2
      omega
    have hs59 : 0 ≤ s ∧ s ≤ 59 := by
      have h2 := hs
      rw [get_elapsed_seconds_some t now d hd, i32cast_of_lt _ (by omega),
        Option.some.injEq] at h2
      omega
    rw [Unitime.get_elapsed_str, hh, hm, hs] at hstr
    have hbuild := Option.some.inj hstr
    subst hbuild
    constructor
    · intro hpos
      rw [if_pos (show hv ≠ 0 by omega)]
      by_cases h10 : hv < 10
      · rw [if_pos h10, specPad_pad hv (by omega) (by omega)]
        by_cases m10 : m < 10
        · rw [if_pos m10, specPad_pad m (by omega) (by omega)]
          by_cases s10 : s < 10
          · rw [if_pos s10, specPad_pad s (by omega) (by omega)]
            simp only [String.append_assoc, String.empty_append]
          · rw [if_neg s10, specPad_plain s (by omega)]
            simp only [String.append_assoc, String.empty_append]
        · rw [if_neg m10, specPad_plain m (by omega)]
          by_cases s10 : s < 10
          · rw [if_pos s10, specPad_pad s (by omega) (by omega)]
            simp only [String.append_assoc, String.empty_append]
          · rw [if_neg s10, specPad_plain s (by omega)]
            simp only [String.append_assoc, String.empty_append]
      · rw [if_neg h10, specPad_plain hv (by omega)]
        by_cases m10 : m < 10
        · rw [if_pos m10, specPad_pad m (by omega) (by omega)]
          by_cases s10 : s < 10
          · rw [if_pos s10, specPad_pad s (by omega) (by omega)]
            simp only [String.append_assoc, String.empty_append]
          · rw [if_neg s10, specPad_plain s (by omega)]
            simp only [String.append_assoc, String.empty_append]
        · rw [if_neg m10, specPad_plain m (by omega)]
          by_cases s10 : s < 10
          · rw [if_pos s10, specPad_pad s (by omega) (by omega)]
            simp only [String.append_assoc, String.empty_append]
          · rw [if_neg s10, specPad_plain s (by omega)]
            simp only [String.append_assoc, String.empty_append]
    · intro h0
      rw [if_neg (show ¬ hv ≠ 0 by omega)]
      by_cases m10 : m < 10
      · rw [if_pos m10, specPad_pad m (by omega) (by omega)]
        by_cases s10 : s < 10
        · rw [if_pos s10, specPad_pad s (by omega) (by omega)]
          simp only [String.append_assoc, String.empty_append]
        · rw [if_neg s10, specPad_plain s (by omega)]
          simp only [String.append_assoc, String.empty_append]
      · rw [if_neg m10, specPad_plain m (by omega)]
        by_cases s10 : s < 10
        · rw [if_pos s10, specPad_pad s (by omega) (by omega)]
          simp only [String.append_assoc, String.empty_append]
        · rw [if_neg s10, specPad_plain s (by omega)]
          simp only [String.append_assoc, String.empty_append]

theorem elapsed_str_format_witness : "00:45" = specPad 0 ++ ":" ++ specPad 45 :=
  (elapsed_str_format ⟨0⟩ 45000 0 0 45 "00:45"
    (by decide) (by decide) (by decide) (by decide)).2 rfl
